import Mathlib

/-!
Verification development for the terminaltexteffects rain-effect engine.

The Python sources embedded here are:
  * `terminaltexteffects/examples/effect_rain.py` — the `RainEffect` class:
    `prepare_data`, `run` (the scheduler loop) and `animate_chars`;
  * `terminaltexteffects/__main__.py` — the `main` entry point;
  * `utils/terminaloperations.py` — `print_character` (with its inner
    `move_and_print`) and `get_piped_input`.

Machine state (Python object mutation) is embedded as explicit state
passing; the global `random` module is embedded as an explicit stream of
naturals with a cursor (`Rng`), each `random.choice` / `random.randint` /
`random.uniform` call consuming one draw.  Parts of the engine that are
only called from these files but live elsewhere (the terminal render
pass, `EffectCharacter.tick`, the ANSI code semantics) are modelled from
the specification and marked as such in their doc comments.
-/

namespace TTE

/-- A deterministic source of random draws: an infinite stream of naturals
together with a cursor.  Each call into the Python `random` module consumes
one draw.  Fixing `stream` and `idx` fixes every random choice, which is the
embedding of fixing the state of Python's global `random` module. -/
structure Rng where
  stream : Nat → Nat
  idx : Nat

/-- Consume one draw from the random stream. -/
def Rng.next (g : Rng) : Nat × Rng :=
  (g.stream g.idx, { stream := g.stream, idx := g.idx + 1 })

/-- Python `random.randint(a, b)` (inclusive bounds): one draw mapped into `[a, b]`. -/
def randint (a b : Nat) (g : Rng) : Nat × Rng :=
  let (r, g') := g.next
  (a + r % (b + 1 - a), g')

/-- Python `random.choice(lst)`: one draw selecting an element of `lst`
(`d` is the out-of-range default; `lst` is non-empty at every call site). -/
def randChoice {α : Type} (lst : List α) (d : α) (g : Rng) : α × Rng :=
  let (r, g') := g.next
  (lst.getD (r % lst.length) d, g')

/-- The `Coord` type from `terminaltexteffects.utils.geometry`: a plain immutable
row/column pair. -/
structure Coord where
  column : Nat
  row : Nat
  deriving DecidableEq

/-- The slice of `EffectCharacter` state that the rain effect reads and
writes.  `id` stands for Python object identity; `workTicks` is the
modelled remaining motion/animation work (see `EffectCharacter.tick`). -/
structure EffectCharacter where
  id : Nat
  inputColumn : Nat
  inputRow : Nat
  sceneColor : Nat
  sceneSymbol : String
  speedDraw : Nat
  workTicks : Nat
  deriving DecidableEq

/-- The `EffectCharacter.is_active` flag: true while the character still has
scheduled motion/animation work. -/
def EffectCharacter.is_active (c : EffectCharacter) : Bool :=
  c.workTicks != 0

/-- Modelled from the spec: `EffectCharacter.tick` (in the engine's
`base_character` module, not among the embedded sources) advances the
character's active Path and Scene one step; `is_active` becomes false once
both have no further scheduled work.  Modelled as one unit of remaining
work consumed per tick. -/
def EffectCharacter.tick (c : EffectCharacter) : EffectCharacter :=
  { c with workTicks := c.workTicks - 1 }

/-- The arguments dataclass `RainEffectArgs`, fields in source order.
Colors are palette values (XTerm index or packed RGB), the speed range is
a pair of draws-scale bounds, and `easing` is the identifier of the chosen
easing callable. -/
structure RainEffectArgs where
  rain_colors : List Nat
  final_color : Nat
  movement_speed : Nat × Nat
  rain_symbols : List String
  final_gradient_stops : List Nat
  final_gradient_steps : Nat
  easing : Nat

/-- The mutable state of a `RainEffect` instance during `run`, plus the
explicit random stream and the trace of characters revealed so far
(`revealed` records each `id` passed to
`terminal.set_character_visibility(·, True)`, in order). -/
structure RainState where
  group_by_row : List (Nat × List EffectCharacter)
  pending_chars : List EffectCharacter
  active_chars : List EffectCharacter
  rng : Rng
  revealed : List Nat

/-- Python `min(keys)` over a non-empty list of ints (0 on the empty list,
which no call site reaches). -/
def listMin : List Nat → Nat
  | [] => 0
  | [k] => k
  | k :: k' :: rest => min k (listMin (k' :: rest))

/-- One iteration of the dict-building loop at the end of
`prepare_data`: append `c` to the bucket of its input row, creating the
bucket at the end if the row key is new (Python dict insertion order). -/
def addToRow (m : List (Nat × List EffectCharacter)) (c : EffectCharacter) :
    List (Nat × List EffectCharacter) :=
  if m.any (fun p => p.1 == c.inputRow) then
    m.map (fun p => if p.1 == c.inputRow then (p.1, p.2 ++ [c]) else p)
  else
    m ++ [(c.inputRow, [c])]

/-- Stable insertion into a row-sorted list (helper for `sortByRow`). -/
def insertByRow (c : EffectCharacter) : List EffectCharacter → List EffectCharacter
  | [] => [c]
  | d :: rest =>
    if c.inputRow ≤ d.inputRow then c :: d :: rest else d :: insertByRow c rest

/-- Python `sorted(chars, key=lambda c: c.input_coord.row)`: stable sort by input
row. -/
def sortByRow : List EffectCharacter → List EffectCharacter
  | [] => []
  | c :: rest => insertByRow c (sortByRow rest)

/-- The per-character body of the second `prepare_data` loop: choose a
rain color and a rain symbol with `random.choice`, draw the movement speed
with `random.uniform`, build the rain scene and the fall path.  The
modelled remaining work of the resulting path/scene is derived from the
speed draw (slower speed draws mean more ticks of work). -/
def configureChar (args : RainEffectArgs) (c : EffectCharacter) (g : Rng) :
    EffectCharacter × Rng :=
  let (color, g1) := randChoice args.rain_colors 0 g
  let (symbol, g2) := randChoice args.rain_symbols " " g1
  let (speed, g3) := g2.next
  ({ c with
      sceneColor := color
      sceneSymbol := symbol
      speedDraw := speed
      workTicks := speed % 3 + 1 }, g3)

/-- The method `RainEffect.prepare_data`: configure every character (consuming the
random stream in source order), collect them into `pending_chars`, then
group the row-sorted list by input row into `group_by_row`. -/
def prepare_data (args : RainEffectArgs) (chars : List EffectCharacter) (g : Rng) :
    (List EffectCharacter × List (Nat × List EffectCharacter)) × Rng :=
  let step := chars.foldl
    (fun (acc : List EffectCharacter × Rng) c =>
      let (c', g') := configureChar args c acc.2
      (acc.1 ++ [c'], g'))
    ([], g)
  ((step.1, (sortByRow step.1).foldl addToRow []), step.2)

/-- Lines 146–148 of `effect_rain.py`: if nothing is pending and staging
is non-empty, pop the group with the minimal row key from `group_by_row`
(Python `dict.pop` removes that single entry) and extend `pending_chars`
with it. -/
def pullPhase (s : RainState) : RainState :=
  if s.pending_chars.isEmpty && !s.group_by_row.isEmpty then
    let k := listMin (s.group_by_row.map Prod.fst)
    let grp := ((s.group_by_row.find? (fun p => p.1 == k)).map Prod.snd).getD []
    { s with
        pending_chars := s.pending_chars ++ grp
        group_by_row := s.group_by_row.eraseP (fun p => p.1 == k) }
  else s

/-- Out-of-range default character (no list access reaches it). -/
def dummyChar : EffectCharacter := ⟨0, 0, 0, 0, "", 0, 0⟩

/-- One iteration of the reveal loop body: if anything is pending, pop a
pending character at a random index, record it as made visible, and append
it to `active_chars`; otherwise the `break` arm does nothing. -/
def revealOne (s : RainState) : RainState :=
  if s.pending_chars.isEmpty then s
  else
    let (i, g') := randint 0 (s.pending_chars.length - 1) s.rng
    let c := s.pending_chars.getD i dummyChar
    { s with
        pending_chars := s.pending_chars.eraseIdx i
        active_chars := s.active_chars ++ [c]
        revealed := s.revealed ++ [c.id]
        rng := g' }

/-- Iterate `revealOne` a fixed number of times. -/
def revealIter : Nat → RainState → RainState
  | 0, s => s
  | n + 1, s => revealIter n (revealOne s)

/-- Lines 149–157 of `effect_rain.py`: when anything is pending, draw
`random.randint(1, 3)` and run the reveal loop body that many times. -/
def revealPhase (s : RainState) : RainState :=
  if s.pending_chars.isEmpty then s
  else
    let (n, g') := randint 1 3 s.rng
    revealIter n { s with rng := g' }

/-- The method `RainEffect.animate_chars`: tick every active character once, in
active-list order. -/
def animate_chars (s : RainState) : RainState :=
  { s with active_chars := s.active_chars.map EffectCharacter.tick }

/-- One iteration of the `while` body in `RainEffect.run`: pull phase,
reveal phase, `animate_chars`, then the filter
`[c for c in active_chars if c.is_active]` (the trailing
`terminal.print()` does not change scheduler state). -/
def frameStep (s : RainState) : RainState :=
  let s3 := animate_chars (revealPhase (pullPhase s))
  { s3 with active_chars := s3.active_chars.filter EffectCharacter.is_active }

/-- The `while` guard of `RainEffect.run`:
`self.group_by_row or self.active_chars or self.pending_chars`. -/
def runGuard (s : RainState) : Bool :=
  !s.group_by_row.isEmpty || !s.active_chars.isEmpty || !s.pending_chars.isEmpty

/-- The `while` loop of `RainEffect.run` with explicit fuel: `some s`
means the loop exited (guard false) in state `s`; `none` means the fuel
ran out while the guard still held. -/
def runLoop : Nat → RainState → Option RainState
  | 0, s => if runGuard s then none else some s
  | n + 1, s => if runGuard s then runLoop n (frameStep s) else some s

/-- The state after `n` frames of the loop (total variant of `runLoop`;
once the guard is false, `frameStep` no longer changes the state). -/
def stepN : Nat → RainState → RainState
  | 0, s => s
  | n + 1, s => stepN n (frameStep s)

/-- The state at the top of the `while` loop in `RainEffect.run`:
`prepare_data` has run, `pending_chars` has been cleared, and the first
`terminal.print()` has been issued (no scheduler state change). -/
def initState (args : RainEffectArgs) (chars : List EffectCharacter) (g : Rng) :
    RainState :=
  let ((_, groups), g') := prepare_data args chars g
  { group_by_row := groups
    pending_chars := []
    active_chars := []
    rng := g'
    revealed := [] }

/-! ## Scheduler event trace (ordering within one frame) -/

/-- One observable scheduler event inside a frame: a character made
visible, a character ticked, or the frame's render pass
(`terminal.print()`). -/
inductive SchedEvent where
  | reveal : Nat → SchedEvent
  | tick : Nat → SchedEvent
  | render : SchedEvent
  deriving DecidableEq

/-- The ordered events of one iteration of the `while` body in
`RainEffect.run`: the reveals of the reveal phase, then one tick per
active character in list order (`animate_chars`), then the single
`terminal.print()` call. -/
def frameEvents (s : RainState) : List SchedEvent :=
  let s2 := revealPhase (pullPhase s)
  (s2.revealed.drop s.revealed.length).map SchedEvent.reveal
    ++ s2.active_chars.map (fun c => SchedEvent.tick c.id)
    ++ [SchedEvent.render]

/-! ## `utils/terminaloperations.py` -/

/-- One write to `sys.stdout` inside `move_and_print`, as the ANSI code it
carries. -/
inductive TermOp where
  | decSaveCursor
  | moveCursorUp : Nat → TermOp
  | moveCursorToColumn : Nat → TermOp
  | writeSym : String → TermOp
  | decRestoreCursor
  deriving DecidableEq

/-- The slice of `EffectCharacter` state that `print_character` reads. -/
structure PChar where
  symbol : String
  current_coord : Coord
  last_coord : Coord
  symbol_changed : Bool
  deriving DecidableEq

/-- The inner `move_and_print` of `print_character`: save the cursor, move
up to the row, move to the column, write the symbol, restore the cursor. -/
def move_and_print (symbol : String) (row column : Nat) : List TermOp :=
  [TermOp.decSaveCursor, TermOp.moveCursorUp row, TermOp.moveCursorToColumn column,
   TermOp.writeSym symbol, TermOp.decRestoreCursor]

/-- The function `print_character`: print the character's symbol at its current
coordinate, then, when `clear_last`, print a space at its last
coordinate. -/
def print_character (c : PChar) (clear_last : Bool) : List TermOp :=
  move_and_print c.symbol c.current_coord.row c.current_coord.column
    ++ (if clear_last then move_and_print " " c.last_coord.row c.last_coord.column else [])

/-- Modelled from the spec: the standard terminal semantics of the ANSI
codes emitted by `move_and_print` (the `utils.ansi` module is not among
the embedded sources).  The cursor has a row/column position and one DEC
saved-position register; moving up decreases the row, writing a symbol
advances the column by its length. -/
structure CursorState where
  row : Int
  col : Int
  saved : Int × Int

/-- Apply one terminal operation to the cursor state. -/
def applyOp (st : CursorState) : TermOp → CursorState
  | TermOp.decSaveCursor => { st with saved := (st.row, st.col) }
  | TermOp.moveCursorUp n => { st with row := st.row - n }
  | TermOp.moveCursorToColumn n => { st with col := n }
  | TermOp.writeSym sym => { st with col := st.col + sym.length }
  | TermOp.decRestoreCursor => { st with row := st.saved.1, col := st.saved.2 }

/-- Apply a list of terminal operations in order. -/
def applyOps (st : CursorState) (ops : List TermOp) : CursorState :=
  ops.foldl applyOp st

/-- The cells written by a list of terminal operations, as
(position, symbol) pairs: each `writeSym` lands at the cursor position
current when it executes. -/
def cellWrites (st : CursorState) : List TermOp → List ((Int × Int) × String)
  | [] => []
  | op :: ops =>
    match op with
    | TermOp.writeSym sym => ((st.row, st.col), sym) :: cellWrites (applyOp st op) ops
    | _ => cellWrites (applyOp st op) ops

/-- The terminal cell addressed by a `Coord` when the cursor starts at
`st`: `MOVE_CURSOR_UP(row)` then `MOVE_CURSOR_TO_COLUMN(column)`. -/
def cellAt (st : CursorState) (co : Coord) : Int × Int :=
  (st.row - co.row, co.column)

/-- Modelled from the spec: the Canvas render pass (`Terminal.print`, not
among the embedded sources) — for every currently visible character whose
`current_coord` differs from its previously rendered position, call
`print_character` with `clear_last`; a character whose position is
unchanged is re-written in place only if its symbol/color changed. -/
def terminal_print (visible : List PChar) : List TermOp :=
  visible.flatMap (fun c =>
    if c.current_coord ≠ c.last_coord then print_character c true
    else if c.symbol_changed then print_character c false
    else [])

/-! ## `terminaltexteffects/__main__.py` and `get_piped_input` -/

/-- The state of `sys.stdin`: whether it is attached to a TTY and the
contents available to `read()`. -/
structure StdinState where
  isatty : Bool
  contents : String
  deriving DecidableEq

/-- The function `get_piped_input`: when stdin is not a TTY, read and return all of it
(the second component records that stdin was read); when stdin is a TTY,
return the empty string without reading. -/
def get_piped_input (stdin : StdinState) : String × Bool :=
  if !stdin.isatty then (stdin.contents, true) else ("", false)

/-- An observable action of `main` after argument parsing. -/
inductive MainAction where
  | printMsg : String → MainAction
  | constructEffect : String → MainAction
  | runEffect : String → MainAction
  deriving DecidableEq

/-- The tail of `main`: read the piped input; if it is falsy (empty),
print "NO INPUT."; otherwise construct the chosen effect on the input and
call its `run`. -/
def mainRun (stdin : StdinState) : List MainAction :=
  let input_data := (get_piped_input stdin).1
  if input_data = "" then [MainAction.printMsg "NO INPUT."]
  else [MainAction.constructEffect input_data, MainAction.runEffect input_data]

/-! ## Theorems: terminal operations -/

/-- Helper: `print_character` restores the cursor to its starting
position (and leaves the starting position in the DEC register). -/
theorem applyOps_print_character (c : PChar) (b : Bool) (st : CursorState) :
    applyOps st (print_character c b) =
      { row := st.row, col := st.col, saved := (st.row, st.col) } := by
  cases b <;> simp [print_character, move_and_print, applyOps, applyOp]

/-- Helper: splitting `cellWrites` across an append. -/
theorem cellWrites_append (l1 l2 : List TermOp) (st : CursorState) :
    cellWrites st (l1 ++ l2) = cellWrites st l1 ++ cellWrites (applyOps st l1) l2 := by
  induction l1 generalizing st with
  | nil => simp [cellWrites, applyOps]
  | cons op ops ih =>
    cases op <;> simp [cellWrites, applyOps, List.foldl_cons] <;>
      rw [ih] <;> simp [applyOps]

/-- Helper: the cells written by `print_character` with `clear_last`: the
symbol at the cell addressed by `current_coord`, then a space at the cell
addressed by `last_coord`. -/
theorem cellWrites_print_character_true (c : PChar) (st : CursorState) :
    cellWrites st (print_character c true) =
      [(cellAt st c.current_coord, c.symbol), (cellAt st c.last_coord, " ")] := by
  simp [print_character, move_and_print, cellWrites, applyOp, cellAt]

/-- Helper: the cells written by `print_character` without `clear_last`. -/
theorem cellWrites_print_character_false (c : PChar) (st : CursorState) :
    cellWrites st (print_character c false) =
      [(cellAt st c.current_coord, c.symbol)] := by
  simp [print_character, move_and_print, cellWrites, applyOp, cellAt]

/-- C10: `print_character` leaves the terminal cursor position unchanged:
every write it performs is bracketed by a DEC save-cursor before and a DEC
restore-cursor after, so for every character and for both values of
`clear_last` the cursor ends at the position it started at. -/
theorem print_character_preserves_cursor (c : PChar) (clear_last : Bool)
    (st : CursorState) :
    (applyOps st (print_character c clear_last)).row = st.row ∧
    (applyOps st (print_character c clear_last)).col = st.col := by
  rw [applyOps_print_character]
  exact ⟨rfl, rfl⟩

/-- C2: the render pass writes, for every visible character whose
`current_coord` differs from its `last_coord`, exactly one symbol at the
cell addressed by `current_coord` and exactly one space (clear) at the
cell addressed by `last_coord`, and writes to no other cell for that
character; an unchanged-position character contributes at most an in-place
rewrite. -/
theorem render_pass_cell_writes (st : CursorState) (visible : List PChar) :
    cellWrites st (terminal_print visible) =
      visible.flatMap (fun c =>
        if c.current_coord ≠ c.last_coord then
          [(cellAt st c.current_coord, c.symbol), (cellAt st c.last_coord, " ")]
        else if c.symbol_changed then [(cellAt st c.current_coord, c.symbol)]
        else []) := by
  induction visible generalizing st with
  | nil => rfl
  | cons c rest ih =>
    rw [terminal_print, List.flatMap_cons, List.flatMap_cons, cellWrites_append]
    show cellWrites st _ ++ cellWrites _ (terminal_print rest) = _
    by_cases h : c.current_coord = c.last_coord
    · simp only [h, ne_eq, not_true_eq_false, if_false]
      by_cases hs : c.symbol_changed
      · simp only [hs, if_true]
        rw [cellWrites_print_character_false, applyOps_print_character, ih]
        simp [cellAt, h]
      · simp only [hs, if_false]
        rw [ih]
        simp [cellWrites, applyOps, cellAt]
    · simp only [ne_eq, h, not_false_eq_true, if_true]
      rw [cellWrites_print_character_true, applyOps_print_character, ih]
      simp [cellAt]

/-! ## Theorems: `__main__` and `get_piped_input` -/

/-- C7: when the piped input is empty, `main` prints "NO INPUT." and
never constructs or runs the effect; when it is non-empty, `main`
constructs the effect on the input and runs it. -/
theorem main_empty_input_skips_engine (stdin : StdinState) :
    ((get_piped_input stdin).1 = "" →
      mainRun stdin = [MainAction.printMsg "NO INPUT."] ∧
      (∀ i, MainAction.constructEffect i ∉ mainRun stdin) ∧
      (∀ i, MainAction.runEffect i ∉ mainRun stdin)) ∧
    ((get_piped_input stdin).1 ≠ "" →
      mainRun stdin =
        [MainAction.constructEffect (get_piped_input stdin).1,
         MainAction.runEffect (get_piped_input stdin).1]) := by
  constructor
  · intro h
    refine ⟨by simp [mainRun, h], ?_, ?_⟩ <;> intro i <;> simp [mainRun, h]
  · intro h
    simp [mainRun, h]

/-- Witness for C7 at concrete inputs: piped-empty stdin prints the
message; stdin piping "hi" constructs and runs the effect. -/
theorem main_empty_input_skips_engine_witness :
    mainRun ⟨false, ""⟩ = [MainAction.printMsg "NO INPUT."] ∧
    mainRun ⟨false, "hi"⟩ =
      [MainAction.constructEffect (get_piped_input ⟨false, "hi"⟩).1,
       MainAction.runEffect (get_piped_input ⟨false, "hi"⟩).1] :=
  ⟨((main_empty_input_skips_engine ⟨false, ""⟩).1 rfl).1,
   (main_empty_input_skips_engine ⟨false, "hi"⟩).2 (by decide)⟩

/-- C9: `get_piped_input` returns the whole stdin contents (reading
stdin) when stdin is not a TTY, returns the empty string without reading
when stdin is a TTY, and consequently `main` on a TTY stdin behaves
exactly like `main` on empty piped input. -/
theorem get_piped_input_tty_behavior (s : StdinState) (contents : String) :
    (s.isatty = false → get_piped_input s = (s.contents, true)) ∧
    (s.isatty = true → get_piped_input s = ("", false)) ∧
    mainRun ⟨true, contents⟩ = mainRun ⟨false, ""⟩ := by
  refine ⟨fun h => ?_, fun h => ?_, rfl⟩ <;> simp [get_piped_input, h]

/-- Witness for C9 at concrete inputs. -/
theorem get_piped_input_tty_behavior_witness :
    get_piped_input ⟨false, "abc"⟩ = ("abc", true) ∧
    get_piped_input ⟨true, "abc"⟩ = ("", false) ∧
    mainRun ⟨true, "abc"⟩ = mainRun ⟨false, ""⟩ :=
  ⟨(get_piped_input_tty_behavior ⟨false, "abc"⟩ "abc").1 rfl,
   (get_piped_input_tty_behavior ⟨true, "abc"⟩ "abc").2.1 rfl,
   (get_piped_input_tty_behavior ⟨true, "abc"⟩ "abc").2.2⟩

/-! ## Theorems: the scheduler loop -/

/-- Helper: the `while` guard is false exactly when staging, active and
pending are all empty. -/
theorem runGuard_eq_false_iff (s : RainState) :
    runGuard s = false ↔
      s.group_by_row = [] ∧ s.active_chars = [] ∧ s.pending_chars = [] := by
  simp [runGuard, List.isEmpty_iff, and_assoc]

/-- C1: `RainEffect.run` returns only when the staging map, the pending
list and the active list are all empty, and as long as any of the three is
non-empty the loop executes another body iteration. -/
theorem run_terminates_iff_all_empty :
    (∀ (fuel : Nat) (s s' : RainState), runLoop fuel s = some s' →
      s'.group_by_row = [] ∧ s'.pending_chars = [] ∧ s'.active_chars = []) ∧
    (∀ (fuel : Nat) (s : RainState),
      (s.group_by_row ≠ [] ∨ s.pending_chars ≠ [] ∨ s.active_chars ≠ []) →
      runLoop (fuel + 1) s = runLoop fuel (frameStep s)) := by
  have hguard : ∀ s : RainState,
      (s.group_by_row ≠ [] ∨ s.pending_chars ≠ [] ∨ s.active_chars ≠ []) →
      runGuard s = true := by
    intro s hs
    cases hg : runGuard s
    · rcases (runGuard_eq_false_iff s).mp hg with ⟨h1, h2, h3⟩
      rcases hs with h | h | h <;> [exact absurd h1 h; exact absurd h3 h; exact absurd h2 h]
    · rfl
  constructor
  · intro fuel
    induction fuel with
    | zero =>
      intro s s' h
      by_cases hg : runGuard s = true
      · simp [runLoop, hg] at h
      · rw [runLoop, if_neg hg, Option.some.injEq] at h
        rcases (runGuard_eq_false_iff s).mp (Bool.not_eq_true _ ▸ hg) with ⟨h1, h2, h3⟩
        exact h ▸ ⟨h1, h3, h2⟩
    | succ n ih =>
      intro s s' h
      by_cases hg : runGuard s = true
      · rw [runLoop, if_pos hg] at h
        exact ih _ _ h
      · rw [runLoop, if_neg hg, Option.some.injEq] at h
        rcases (runGuard_eq_false_iff s).mp (Bool.not_eq_true _ ▸ hg) with ⟨h1, h2, h3⟩
        exact h ▸ ⟨h1, h3, h2⟩
  · intro fuel s hs
    rw [runLoop, if_pos (hguard s hs)]

/-- A state with everything empty (the loop's exit configuration). -/
def emptyS : RainState :=
  ⟨[], [], [], ⟨fun _ => 0, 0⟩, []⟩

/-- A state with one pending character (the loop's guard holds). -/
def pendS : RainState :=
  ⟨[], [⟨1, 0, 0, 0, "o", 0, 1⟩], [], ⟨fun _ => 0, 0⟩, []⟩

/-- Witness for C1: the loop exits immediately on the all-empty state, and
on a state with a pending character the loop takes a body step. -/
theorem run_terminates_iff_all_empty_witness :
    (emptyS.group_by_row = [] ∧ emptyS.pending_chars = [] ∧
      emptyS.active_chars = []) ∧
    runLoop 1 pendS = runLoop 0 (frameStep pendS) :=
  ⟨run_terminates_iff_all_empty.1 0 emptyS emptyS rfl,
   run_terminates_iff_all_empty.2 0 pendS (Or.inr (Or.inl (by simp [pendS])))⟩

/-- The active list as it stands when the frame's tick pass has finished:
every character active after the reveal phase, ticked once. -/
def tickedActive (s : RainState) : List EffectCharacter :=
  ((revealPhase (pullPhase s)).active_chars).map EffectCharacter.tick

/-- C4: at the end of every frame the active list is exactly the ticked
characters whose `is_active` flag is true, kept in order: the retained
list is a sublist (order preserved) of the ticked active list, and a
character belongs to it exactly when it was there after ticking and its
`is_active` is true. -/
theorem active_filtered_by_is_active (s : RainState) :
    ((frameStep s).active_chars).Sublist (tickedActive s) ∧
    (∀ c, c ∈ (frameStep s).active_chars ↔
      c ∈ tickedActive s ∧ c.is_active = true) := by
  constructor
  · show (List.filter _ _).Sublist _
    exact List.filter_sublist _
  · intro c
    show c ∈ List.filter _ _ ↔ _
    exact List.mem_filter

/-- Helper: `listMin` of a non-empty list is an element of it. -/
theorem listMin_mem (l : List Nat) (h : l ≠ []) : listMin l ∈ l := by
  induction l with
  | nil => exact absurd rfl h
  | cons k rest ih =>
    cases rest with
    | nil => simp [listMin]
    | cons k' rest' =>
      rw [listMin]
      rcases le_total k (listMin (k' :: rest')) with hle | hle
      · rw [min_eq_left hle]
        exact List.mem_cons_self _ _
      · rw [min_eq_right hle]
        exact List.mem_cons_of_mem _ (ih (by simp))

/-- Helper: `listMin` is a lower bound of its list. -/
theorem listMin_le (l : List Nat) (k : Nat) (hk : k ∈ l) : listMin l ≤ k := by
  induction l with
  | nil => simp at hk
  | cons a rest ih =>
    cases rest with
    | nil =>
      rw [List.mem_singleton] at hk
      rw [hk, listMin]
    | cons a' rest' =>
      rw [listMin]
      rcases List.mem_cons.mp hk with h | h
      · rw [h]
        exact min_le_left _ _
      · exact le_trans (min_le_right _ _) (ih h)

/-- Helper: popping a key from an association list whose keys are
distinct (a Python dict) removes exactly the entries carrying that key. -/
theorem eraseP_eq_filter_of_keys_nodup (k : Nat)
    (m : List (Nat × List EffectCharacter)) (h : (m.map Prod.fst).Nodup) :
    m.eraseP (fun p => p.1 == k) = m.filter (fun p => !(p.1 == k)) := by
  induction m with
  | nil => rfl
  | cons p rest ih =>
    rw [List.map_cons, List.nodup_cons] at h
    by_cases hp : p.1 = k
    · rw [List.eraseP_cons, List.filter_cons]
      simp only [hp, beq_self_eq_true, Bool.not_true, if_pos, cond_true]
      refine Eq.symm (List.filter_eq_self.mpr ?_)
      intro q hq
      simp only [Bool.not_eq_true', beq_eq_false_iff_ne, ne_eq]
      intro hqk
      exact h.1 (by rw [hp, ← hqk]; exact List.mem_map_of_mem Prod.fst hq)
    · rw [List.eraseP_cons, List.filter_cons]
      have hbeq : (p.1 == k) = false := beq_eq_false_iff_ne.mpr hp
      simp only [hbeq, Bool.not_false, cond_false, if_pos]
      rw [ih h.2]

/-- C5: when pending is empty and staging is non-empty at the start of a
frame, the pull phase moves exactly the group with the lowest row key from
staging into pending and removes that key from the staging map, leaving
the active list and the reveal trace untouched. -/
theorem pull_moves_min_row_group (s : RainState) (hp : s.pending_chars = [])
    (hg : s.group_by_row ≠ [])
    (hnd : (s.group_by_row.map Prod.fst).Nodup) :
    ∃ k grp, (k, grp) ∈ s.group_by_row ∧
      (∀ k' ∈ s.group_by_row.map Prod.fst, k ≤ k') ∧
      (pullPhase s).pending_chars = grp ∧
      (pullPhase s).group_by_row =
        s.group_by_row.filter (fun p => !(p.1 == k)) ∧
      (pullPhase s).active_chars = s.active_chars ∧
      (pullPhase s).revealed = s.revealed := by
  have hkeys : s.group_by_row.map Prod.fst ≠ [] := by
    intro hnil
    exact hg (List.map_eq_nil_iff.mp hnil)
  have hkmem : listMin (s.group_by_row.map Prod.fst) ∈ s.group_by_row.map Prod.fst :=
    listMin_mem _ hkeys
  set k := listMin (s.group_by_row.map Prod.fst) with hk
  rcases List.mem_map.mp hkmem with ⟨q, hqmem, hqk⟩
  have hfind : ∃ r, s.group_by_row.find? (fun p => p.1 == k) = some r := by
    have : (s.group_by_row.find? (fun p => p.1 == k)).isSome := by
      rw [List.find?_isSome]
      exact ⟨q, hqmem, by simp [hqk]⟩
    exact Option.isSome_iff_exists.mp this
  rcases hfind with ⟨r, hr⟩
  have hrk : r.1 = k := by
    have := List.find?_some hr
    exact beq_iff_eq.mp this
  have hrmem : r ∈ s.group_by_row := List.mem_of_find?_eq_some hr
  have hcond : (s.pending_chars.isEmpty && !s.group_by_row.isEmpty) = true := by
    rw [hp]
    simp [List.isEmpty_iff, hg]
  refine ⟨k, r.2, ?_, ?_, ?_, ?_, ?_, ?_⟩
  · rw [← hrk]
    exact hrmem
  · intro k' hk'
    exact listMin_le _ _ hk'
  · show (if _ then _ else s).pending_chars = r.2
    rw [if_pos hcond]
    show s.pending_chars ++ _ = r.2
    rw [hp, List.nil_append, hr]
    rfl
  · show (if _ then _ else s).group_by_row = _
    rw [if_pos hcond]
    show s.group_by_row.eraseP (fun p => p.1 == k) = _
    exact eraseP_eq_filter_of_keys_nodup k s.group_by_row hnd
  · show (if _ then _ else s).active_chars = s.active_chars
    rw [if_pos hcond]
  · show (if _ then _ else s).revealed = s.revealed
    rw [if_pos hcond]

/-- A staging map with two rows for the C5 witness. -/
def twoRowS : RainState :=
  ⟨[(2, [⟨7, 0, 2, 0, "o", 0, 1⟩]), (1, [⟨3, 0, 1, 0, ".", 0, 1⟩])],
   [], [], ⟨fun _ => 0, 0⟩, []⟩

/-- Witness for C5 on a concrete two-row staging map. -/
theorem pull_moves_min_row_group_witness :
    ∃ k grp, (k, grp) ∈ twoRowS.group_by_row ∧
      (∀ k' ∈ twoRowS.group_by_row.map Prod.fst, k ≤ k') ∧
      (pullPhase twoRowS).pending_chars = grp ∧
      (pullPhase twoRowS).group_by_row =
        twoRowS.group_by_row.filter (fun p => !(p.1 == k)) ∧
      (pullPhase twoRowS).active_chars = twoRowS.active_chars ∧
      (pullPhase twoRowS).revealed = twoRowS.revealed :=
  pull_moves_min_row_group twoRowS rfl (by simp [twoRowS]) (by decide)

/-- Helper: in a trace of the form `A ++ [render]` where `A` holds no
render event, every tick event's index is strictly below every render
event's index. -/
theorem tick_lt_render_aux (A : List SchedEvent) (hA : SchedEvent.render ∉ A)
    (i j cid : Nat)
    (hi : (A ++ [SchedEvent.render])[i]? = some (SchedEvent.tick cid))
    (hj : (A ++ [SchedEvent.render])[j]? = some SchedEvent.render) : i < j := by
  have hj' : j = A.length := by
    rcases lt_or_ge j A.length with h | h
    · exfalso
      rw [List.getElem?_append, if_pos h] at hj
      rcases List.getElem?_eq_some_iff.mp hj with ⟨hlt, heq⟩
      exact hA (heq ▸ List.getElem_mem hlt)
    · rw [List.getElem?_append, if_neg (not_lt.mpr h)] at hj
      have hj0 : j - A.length = 0 := by
        by_contra hne
        rcases Nat.exists_eq_succ_of_ne_zero hne with ⟨m, hm⟩
        rw [hm] at hj
        simp at hj
      omega
  have hi' : i < A.length := by
    rcases lt_or_ge i A.length with h | h
    · exact h
    · exfalso
      rw [List.getElem?_append, if_neg (not_lt.mpr h)] at hi
      have hi0 : i - A.length = 0 := by
        by_contra hne
        rcases Nat.exists_eq_succ_of_ne_zero hne with ⟨m, hm⟩
        rw [hm] at hi
        simp at hi
      rw [hi0] at hi
      simp at hi
  omega

/-- C6: within every frame, every tick event occurs strictly before the
frame's render event, and every character active when the tick pass starts
has a tick event in the frame's trace: rendering happens only after all
ticks of the frame complete. -/
theorem ticks_complete_before_render (s : RainState) :
    (∀ (i j cid : Nat),
      (frameEvents s)[i]? = some (SchedEvent.tick cid) →
      (frameEvents s)[j]? = some SchedEvent.render → i < j) ∧
    (∀ c ∈ (revealPhase (pullPhase s)).active_chars,
      SchedEvent.tick c.id ∈ frameEvents s) := by
  constructor
  · intro i j cid hi hj
    rw [frameEvents] at hi hj
    refine tick_lt_render_aux _ ?_ i j cid hi hj
    intro hmem
    rcases List.mem_append.mp hmem with h | h
    · rcases List.mem_map.mp h with ⟨x, _, hx⟩
      exact SchedEvent.noConfusion hx
    · rcases List.mem_map.mp h with ⟨x, _, hx⟩
      exact SchedEvent.noConfusion hx
  · intro c hc
    rw [frameEvents]
    refine List.mem_append.mpr (Or.inl (List.mem_append.mpr (Or.inr ?_)))
    exact List.mem_map_of_mem _ hc

/-- A state with one already-active character for the C6 witness. -/
def oneActiveS : RainState :=
  ⟨[], [], [⟨5, 0, 0, 0, "o", 0, 2⟩], ⟨fun _ => 0, 0⟩, []⟩

/-- Witness for C6: on the concrete one-active-character state the tick
event at index 0 precedes the render event at index 1, and the active
character's tick is in the trace. -/
theorem ticks_complete_before_render_witness :
    0 < 1 ∧ SchedEvent.tick 5 ∈ frameEvents oneActiveS :=
  ⟨(ticks_complete_before_render oneActiveS).1 0 1 5 rfl rfl,
   (ticks_complete_before_render oneActiveS).2 ⟨5, 0, 0, 0, "o", 0, 2⟩
     (by simp [oneActiveS, revealPhase, pullPhase])⟩

/-! ## Theorems: determinism and the random source -/

/-- The subject of a tick event, if the event is a tick. -/
def tickId : SchedEvent → Option Nat
  | SchedEvent.tick i => some i
  | _ => none

/-- Arguments with two rain colors for the randomness theorems. -/
def c3Args : RainEffectArgs := ⟨[2, 5], 7, (1, 2), ["o"], [1], 12, 0⟩

/-- A single blank input character for the randomness theorems. -/
def c3Char : EffectCharacter := ⟨0, 0, 0, 0, "", 0, 0⟩

/-- Counterexample to C3 as stated: with identical effect arguments and
identical input, two states of the global random source yield different
chosen rain colors, so the run is not reproducible from the effect's
configuration surface alone — `RainEffect` accepts no injectable seed;
its randomness is the implicit global `random` module. -/
theorem seed_not_injectable_counterexample :
    ((prepare_data c3Args [c3Char] ⟨fun _ => 0, 0⟩).1.1.map
        (fun c => c.sceneColor)) ≠
      ((prepare_data c3Args [c3Char] ⟨fun _ => 1, 0⟩).1.1.map
        (fun c => c.sceneColor)) := by
  decide

/-- C3 amended: for a fixed input and a fixed state of the global random
source the whole run (reveal order and chosen colors/symbols/speeds) is
deterministic, and within each frame characters are ticked exactly in
active-list order; but the seed is the global `random` module's state, not
an injectable argument of the effect. -/
theorem run_deterministic_given_rng (args : RainEffectArgs)
    (chars : List EffectCharacter) (f1 f2 : Nat → Nat) (n : Nat)
    (h : ∀ k, f1 k = f2 k) :
    ((stepN n (initState args chars ⟨f1, 0⟩)).revealed =
       (stepN n (initState args chars ⟨f2, 0⟩)).revealed ∧
     (stepN n (initState args chars ⟨f1, 0⟩)).active_chars =
       (stepN n (initState args chars ⟨f2, 0⟩)).active_chars) ∧
    (∀ s : RainState, (frameEvents s).filterMap tickId =
       ((revealPhase (pullPhase s)).active_chars).map (fun c => c.id)) := by
  have hf : f1 = f2 := funext h
  subst hf
  refine ⟨⟨rfl, rfl⟩, ?_⟩
  intro s
  have h1 : ∀ L : List SchedEvent, (∀ e ∈ L, ∃ x, e = SchedEvent.reveal x) →
      List.filterMap tickId L = [] := by
    intro L
    induction L with
    | nil => intro _; rfl
    | cons e t ih =>
      intro hL
      rcases hL e (List.mem_cons_self _ _) with ⟨x, hx⟩
      rw [hx, List.filterMap_cons]
      exact ih (fun e' he' => hL e' (List.mem_cons_of_mem _ he'))
  have h2 : ∀ l : List EffectCharacter,
      List.filterMap tickId (l.map (fun c => SchedEvent.tick c.id)) =
        l.map (fun c => c.id) := by
    intro l
    induction l with
    | nil => rfl
    | cons a t ih => simp [List.filterMap_cons, tickId, ih]
  rw [frameEvents, List.filterMap_append, List.filterMap_append]
  rw [h1 _ (fun e he => by
    rcases List.mem_map.mp he with ⟨x, _, hx⟩
    exact ⟨x, hx.symm⟩)]
  rw [h2]
  simp [tickId]

/-- Witness for the amended C3 at a concrete input, seed stream and frame
count. -/
theorem run_deterministic_given_rng_witness :
    (((stepN 1 (initState c3Args [c3Char] ⟨fun _ => 0, 0⟩)).revealed =
        (stepN 1 (initState c3Args [c3Char] ⟨fun _ => 0, 0⟩)).revealed ∧
      (stepN 1 (initState c3Args [c3Char] ⟨fun _ => 0, 0⟩)).active_chars =
        (stepN 1 (initState c3Args [c3Char] ⟨fun _ => 0, 0⟩)).active_chars) ∧
     (∀ s : RainState, (frameEvents s).filterMap tickId =
        ((revealPhase (pullPhase s)).active_chars).map (fun c => c.id))) :=
  run_deterministic_given_rng c3Args [c3Char] (fun _ => 0) (fun _ => 0) 1
    (fun _ => rfl)

/-! ## Theorems: each character is revealed at most once -/

/-- The object identities of a character list. -/
def idsOf (l : List EffectCharacter) : List Nat := l.map (fun c => c.id)

/-- All characters stored in the staging map, in map order. -/
def stagingChars (m : List (Nat × List EffectCharacter)) :
    List EffectCharacter :=
  m.flatMap Prod.snd

/-- The scheduler's bookkeeping of character identities: already revealed,
then pending, then staged. -/
def schedIds (s : RainState) : List Nat :=
  s.revealed ++ idsOf s.pending_chars ++ idsOf (stagingChars s.group_by_row)

/-- Helper: removing the element at a valid index and re-consing it is a
permutation of the original list. -/
theorem perm_getD_eraseIdx {α : Type} (l : List α) (i : Nat) (d : α)
    (h : i < l.length) : (l.getD i d :: l.eraseIdx i).Perm l := by
  induction l generalizing i with
  | nil => simp at h
  | cons a rest ih =>
    cases i with
    | zero => simp [List.eraseIdx]
    | succ n =>
      have hn : n < rest.length := by simpa using h
      have hperm := (ih n hn).cons a
      have hswap : List.Perm
          (rest.getD n d :: a :: rest.eraseIdx n)
          (a :: rest.getD n d :: rest.eraseIdx n) :=
        List.Perm.swap a (rest.getD n d) (rest.eraseIdx n)
      exact hswap.trans hperm

/-- Helper: rotating the first two blocks of a three-block append is a
permutation. -/
theorem perm_rotate {α : Type} (a b c : List α) :
    (a ++ (b ++ c)).Perm (b ++ (a ++ c)) := by
  have h2 : ((a ++ b) ++ c).Perm ((b ++ a) ++ c) :=
    List.Perm.append_right c List.perm_append_comm
  rw [List.append_assoc, List.append_assoc] at h2
  exact h2

/-- Helper: one reveal moves one identity from pending to the reveal
trace; the combined bookkeeping is a permutation of what it was. -/
theorem schedIds_revealOne (s : RainState) :
    (schedIds (revealOne s)).Perm (schedIds s) := by
  rw [revealOne]
  by_cases hc : s.pending_chars.isEmpty = true
  · rw [if_pos hc]
  · rw [if_neg hc]
    have hne : s.pending_chars ≠ [] := fun h => hc (by simp [h])
    have hlen : 0 < s.pending_chars.length := List.length_pos.mpr hne
    have hi : (randint 0 (s.pending_chars.length - 1) s.rng).1 <
        s.pending_chars.length := by
      show 0 + s.rng.stream s.rng.idx % (s.pending_chars.length - 1 + 1 - 0) < _
      rw [Nat.zero_add, Nat.sub_zero, Nat.sub_add_cancel hlen]
      exact Nat.mod_lt _ hlen
    have hperm := perm_getD_eraseIdx s.pending_chars
      (randint 0 (s.pending_chars.length - 1) s.rng).1 dummyChar hi
    have hmap := hperm.map (fun c => c.id)
    show List.Perm
      ((s.revealed ++ [(s.pending_chars.getD
          (randint 0 (s.pending_chars.length - 1) s.rng).1 dummyChar).id])
        ++ idsOf (s.pending_chars.eraseIdx
            (randint 0 (s.pending_chars.length - 1) s.rng).1)
        ++ idsOf (stagingChars s.group_by_row))
      (s.revealed ++ idsOf s.pending_chars ++ idsOf (stagingChars s.group_by_row))
    simp only [List.append_assoc]
    refine List.Perm.append_left s.revealed ?_
    rw [← List.append_assoc]
    refine List.Perm.append_right _ ?_
    simp only [idsOf, List.singleton_append]
    exact hmap

/-- Helper: iterating the reveal body preserves the bookkeeping up to
permutation. -/
theorem schedIds_revealIter (n : Nat) (s : RainState) :
    (schedIds (revealIter n s)).Perm (schedIds s) := by
  induction n generalizing s with
  | zero => exact List.Perm.refl _
  | succ m ih => exact (ih (revealOne s)).trans (schedIds_revealOne s)

/-- Helper: the reveal phase preserves the bookkeeping up to
permutation. -/
theorem schedIds_revealPhase (s : RainState) :
    (schedIds (revealPhase s)).Perm (schedIds s) := by
  rw [revealPhase]
  by_cases hc : s.pending_chars.isEmpty = true
  · rw [if_pos hc]
  · rw [if_neg hc]
    exact schedIds_revealIter _ _

/-- Helper: `find?` returns the first match of a decomposed list. -/
theorem find?_eq_first {α : Type} (p : α → Bool) (l₁ : List α) (a : α)
    (l₂ : List α) (h₁ : ∀ b ∈ l₁, p b = false) (ha : p a = true) :
    List.find? p (l₁ ++ a :: l₂) = some a := by
  induction l₁ with
  | nil =>
    rw [List.nil_append]
    exact List.find?_cons_of_pos _ ha
  | cons b t ih =>
    rw [List.cons_append, List.find?_cons_of_neg]
    · exact ih (fun x hx => h₁ x (List.mem_cons_of_mem _ hx))
    · simp [h₁ b (List.mem_cons_self _ _)]

/-- Helper: the pull phase moves one staged group's identities into the
pending block; the combined bookkeeping is a permutation of what it
was. -/
theorem schedIds_pullPhase (s : RainState) :
    (schedIds (pullPhase s)).Perm (schedIds s) := by
  rw [pullPhase]
  by_cases hc : (s.pending_chars.isEmpty && !s.group_by_row.isEmpty) = true
  case neg => rw [if_neg hc]
  rw [if_pos hc]
  rcases Bool.and_eq_true_iff.mp hc with ⟨hpe, hge⟩
  have hp : s.pending_chars = [] := List.isEmpty_iff.mp hpe
  have hg : s.group_by_row ≠ [] := by
    intro h
    rw [h] at hge
    simp at hge
  have hkeys : s.group_by_row.map Prod.fst ≠ [] :=
    fun h => hg (List.map_eq_nil_iff.mp h)
  have hkmem := listMin_mem _ hkeys
  rcases List.mem_map.mp hkmem with ⟨q, hqm, hqk⟩
  have hq : (fun p => p.1 == listMin (s.group_by_row.map Prod.fst)) q = true := by
    simp [hqk]
  rcases @List.exists_of_eraseP _
      (fun p => p.1 == listMin (s.group_by_row.map Prod.fst))
      s.group_by_row q hqm hq
    with ⟨a, l₁, l₂, hnl₁, hpa, hdecomp, herase⟩
  have hfind : s.group_by_row.find?
      (fun p => p.1 == listMin (s.group_by_row.map Prod.fst)) = some a := by
    have h1 : List.find? (fun p => p.1 == listMin (s.group_by_row.map Prod.fst))
        (l₁ ++ a :: l₂) = some a := by
      refine find?_eq_first _ l₁ a l₂ (fun b hb => ?_) hpa
      have hnb := hnl₁ b hb
      cases hb2 : (b.1 == listMin (s.group_by_row.map Prod.fst))
      · rfl
      · exact absurd hb2 hnb
    rw [← hdecomp] at h1
    exact h1
  show List.Perm
    (s.revealed
      ++ idsOf (s.pending_chars ++ ((s.group_by_row.find?
          (fun p => p.1 == listMin (s.group_by_row.map Prod.fst))).map
            Prod.snd).getD [])
      ++ idsOf (stagingChars (s.group_by_row.eraseP
          (fun p => p.1 == listMin (s.group_by_row.map Prod.fst)))))
    (s.revealed ++ idsOf s.pending_chars
      ++ idsOf (stagingChars s.group_by_row))
  rw [hfind, herase, hdecomp, hp]
  simp only [Option.map_some, Option.getD_some, List.nil_append, idsOf,
    stagingChars, List.flatMap_append, List.flatMap_cons, List.map_append,
    List.append_assoc]
  refine List.Perm.append_left s.revealed ?_
  exact perm_rotate _ _ _

/-- Helper: one whole frame preserves the bookkeeping up to permutation
(ticking and filtering touch only the active list, which the bookkeeping
does not mention). -/
theorem schedIds_frameStep (s : RainState) :
    (schedIds (frameStep s)).Perm (schedIds s) := by
  have h1 : schedIds (frameStep s) = schedIds (revealPhase (pullPhase s)) := rfl
  rw [h1]
  exact (schedIds_revealPhase _).trans (schedIds_pullPhase s)

/-- Helper: distinctness of the bookkeeping is preserved by any number of
frames. -/
theorem schedIds_stepN_nodup (n : Nat) (s : RainState)
    (h : (schedIds s).Nodup) : (schedIds (stepN n s)).Nodup := by
  induction n generalizing s with
  | zero => exact h
  | succ m ih =>
    exact ih (frameStep s) ((schedIds_frameStep s).symm.nodup h)

/-- Helper: inserting into a row-sorted list is a permutation of
consing. -/
theorem insertByRow_perm (c : EffectCharacter) (l : List EffectCharacter) :
    (insertByRow c l).Perm (c :: l) := by
  induction l with
  | nil => exact List.Perm.refl _
  | cons d rest ih =>
    rw [insertByRow]
    by_cases h : c.inputRow ≤ d.inputRow
    · rw [if_pos h]
    · rw [if_neg h]
      exact (ih.cons d).trans (List.Perm.swap c d rest)

/-- Helper: the stable row sort permutes its input. -/
theorem sortByRow_perm (l : List EffectCharacter) :
    (sortByRow l).Perm l := by
  induction l with
  | nil => exact List.Perm.refl _
  | cons c rest ih =>
    exact (insertByRow_perm c (sortByRow rest)).trans (ih.cons c)


/-- Helper: `addToRow` keeps the staging map's keys distinct. -/
theorem addToRow_keys_nodup (m : List (Nat × List EffectCharacter))
    (c : EffectCharacter) (h : (m.map Prod.fst).Nodup) :
    ((addToRow m c).map Prod.fst).Nodup := by
  rw [addToRow]
  by_cases hany : m.any (fun p => p.1 == c.inputRow) = true
  · rw [if_pos hany]
    have hmap : (m.map (fun p => if p.1 == c.inputRow then (p.1, p.2 ++ [c]) else p)).map
        Prod.fst = m.map Prod.fst := by
      rw [List.map_map]
      refine List.map_congr_left ?_
      intro p _
      by_cases hp : p.1 = c.inputRow <;> simp [hp]
    rw [hmap]
    exact h
  · rw [if_neg hany]
    rw [List.map_append, List.nodup_append]
    refine ⟨h, List.nodup_singleton _, ?_⟩
    intro x hx hx'
    simp only [List.map_cons, List.map_nil, List.mem_singleton] at hx'
    rcases List.mem_map.mp hx with ⟨p, hpm, hpf⟩
    apply hany
    rw [List.any_eq_true]
    refine ⟨p, hpm, ?_⟩
    rw [beq_iff_eq, hpf, hx']

/-- Helper: adding a character to its row bucket appends exactly that
character to the staged population, up to permutation (keys distinct). -/
theorem stagingChars_addToRow (m : List (Nat × List EffectCharacter))
    (c : EffectCharacter) (h : (m.map Prod.fst).Nodup) :
    (stagingChars (addToRow m c)).Perm (stagingChars m ++ [c]) := by
  induction m with
  | nil =>
    simp [addToRow, stagingChars]
  | cons p rest ih =>
    rw [List.map_cons, List.nodup_cons] at h
    rw [addToRow]
    by_cases hp : p.1 = c.inputRow
    · have hany : ((p :: rest).any (fun q => q.1 == c.inputRow) = true) := by
        rw [List.any_cons]
        simp [hp]
      rw [if_pos hany]
      have hrest : rest.map
          (fun q => if q.1 == c.inputRow then (q.1, q.2 ++ [c]) else q) = rest := by
        refine List.map_congr_left ?_ |>.trans (List.map_id _)
        intro q hq
        have hqne : q.1 ≠ c.inputRow := by
          intro he
          exact h.1 (by rw [hp, ← he]; exact List.mem_map_of_mem Prod.fst hq)
        simp [hqne]
      rw [List.map_cons, hrest, if_pos (beq_iff_eq.mpr hp)]
      simp only [stagingChars, List.flatMap_cons]
      simp only [List.append_assoc]
      refine List.Perm.append_left p.2 ?_
      exact List.perm_append_comm
    · have hbeq : (p.1 == c.inputRow) = false := beq_eq_false_iff_ne.mpr hp
      have hhead : (if p.1 == c.inputRow then (p.1, p.2 ++ [c]) else p) = p := by
        rw [hbeq]
        simp
      rw [List.any_cons]
      by_cases hany : rest.any (fun q => q.1 == c.inputRow) = true
      · have hcond : (p.1 == c.inputRow || rest.any fun q => q.1 == c.inputRow) = true := by
          rw [hbeq, hany]
          rfl
        rw [if_pos hcond, List.map_cons, hhead]
        have haddr : addToRow rest c = rest.map
            (fun q => if q.1 == c.inputRow then (q.1, q.2 ++ [c]) else q) := by
          rw [addToRow, if_pos hany]
        have ihr := ih h.2
        rw [haddr] at ihr
        simp only [stagingChars, List.flatMap_cons] at ihr ⊢
        simp only [List.append_assoc]
        exact List.Perm.append_left p.2 ihr
      · have hanyb : rest.any (fun q => q.1 == c.inputRow) = false :=
          Bool.not_eq_true _ ▸ hany
        have hcond : (p.1 == c.inputRow || rest.any fun q => q.1 == c.inputRow) = false := by
          rw [hbeq, hanyb]
          rfl
        rw [hcond]
        simp only [Bool.false_eq_true, if_false]
        have heq : stagingChars ((p :: rest) ++ [(c.inputRow, [c])]) =
            stagingChars (p :: rest) ++ [c] := by
          simp [stagingChars, List.flatMap_append, List.flatMap_cons]
        rw [heq]

/-- Helper: the dict-building fold distributes exactly the folded
characters into buckets, up to permutation. -/
theorem stagingChars_foldl (l : List EffectCharacter) :
    ∀ m : List (Nat × List EffectCharacter), (m.map Prod.fst).Nodup →
      (stagingChars (l.foldl addToRow m)).Perm (stagingChars m ++ l) := by
  induction l with
  | nil =>
    intro m _
    simp
  | cons c t ih =>
    intro m hm
    rw [List.foldl_cons]
    have h1 := ih (addToRow m c) (addToRow_keys_nodup m c hm)
    have h2 := List.Perm.append_right t (stagingChars_addToRow m c hm)
    refine h1.trans (h2.trans ?_)
    rw [List.append_assoc, List.singleton_append]

/-- Helper: the configuration fold of `prepare_data` preserves each
character's identity, in order. -/
theorem prepare_data_ids (args : RainEffectArgs) (chars : List EffectCharacter)
    (g : Rng) : idsOf (prepare_data args chars g).1.1 = idsOf chars := by
  have hgen : ∀ (l : List EffectCharacter) (acc : List EffectCharacter) (g0 : Rng),
      idsOf (l.foldl
        (fun (acc : List EffectCharacter × Rng) c =>
          let (c', g') := configureChar args c acc.2
          (acc.1 ++ [c'], g'))
        (acc, g0)).1 = idsOf acc ++ idsOf l := by
    intro l
    induction l with
    | nil =>
      intro acc g0
      simp [idsOf]
    | cons c t ih =>
      intro acc g0
      rw [List.foldl_cons]
      rcases hcg : configureChar args c g0 with ⟨c', g'⟩
      have hc'id : c'.id = c.id := by
        have h1 : c' = (configureChar args c g0).1 := by rw [hcg]
        rw [h1]
        rfl
      show idsOf (t.foldl _ (acc ++ [c'], g')).1 = _
      rw [ih (acc ++ [c']) g']
      simp [idsOf, hc'id]
  exact hgen chars [] g

/-- Helper: starting from distinct character identities, the initial
scheduler state's bookkeeping is duplicate-free. -/
theorem initState_schedIds_nodup (args : RainEffectArgs)
    (chars : List EffectCharacter) (g : Rng) (h : (idsOf chars).Nodup) :
    (schedIds (initState args chars g)).Nodup := by
  show (([] : List Nat) ++ idsOf ([] : List EffectCharacter)
    ++ idsOf (stagingChars
        ((sortByRow (prepare_data args chars g).1.1).foldl addToRow []))).Nodup
  have hperm1 := stagingChars_foldl (sortByRow (prepare_data args chars g).1.1)
    [] (by simp)
  have hperm2 : (stagingChars
      ((sortByRow (prepare_data args chars g).1.1).foldl addToRow [])).Perm
      (prepare_data args chars g).1.1 := by
    refine hperm1.trans ?_
    show (stagingChars [] ++ _).Perm _
    rw [stagingChars, List.flatMap_nil, List.nil_append]
    exact sortByRow_perm _
  have hids := hperm2.map (fun c => c.id)
  have hids' : (idsOf (stagingChars
      ((sortByRow (prepare_data args chars g).1.1).foldl addToRow []))).Perm
      (idsOf chars) := by
    rw [← prepare_data_ids args chars g]
    exact hids
  have hnd := hids'.symm.nodup h
  simpa using hnd

/-- C8: throughout one run of `RainEffect.run`, every character is
revealed at most once: starting from the initial state over characters
with distinct identities, after any number of frames the reveal trace
(the identities passed to `set_character_visibility(·, True)`) has no
duplicates — each identity is revealed at most once. -/
theorem reveal_at_most_once (args : RainEffectArgs)
    (chars : List EffectCharacter) (g : Rng) (n : Nat)
    (h : (idsOf chars).Nodup) :
    ((stepN n (initState args chars g)).revealed).Nodup ∧
    (∀ cid : Nat,
      ((stepN n (initState args chars g)).revealed).count cid ≤ 1) := by
  have hinv := schedIds_stepN_nodup n _ (initState_schedIds_nodup args chars g h)
  have hsub : ((stepN n (initState args chars g)).revealed).Sublist
      (schedIds (stepN n (initState args chars g))) := by
    rw [schedIds]
    exact (List.sublist_append_left _ _).trans (List.sublist_append_left _ _)
  have hnd := hsub.nodup hinv
  exact ⟨hnd, fun cid => List.nodup_iff_count_le_one.mp hnd cid⟩

/-- Arguments for the C8 witness. -/
def c8Args : RainEffectArgs := ⟨[3, 6, 9], 7, (1, 2), ["o", "."], [1], 12, 0⟩

/-- Three characters with distinct identities for the C8 witness. -/
def c8Chars : List EffectCharacter :=
  [⟨0, 0, 0, 0, "a", 0, 0⟩, ⟨1, 1, 0, 0, "b", 0, 0⟩, ⟨2, 0, 1, 0, "c", 0, 0⟩]

/-- Witness for C8 on a concrete three-character run of six frames. -/
theorem reveal_at_most_once_witness :
    ((stepN 6 (initState c8Args c8Chars ⟨fun k => k, 0⟩)).revealed).Nodup ∧
    (∀ cid : Nat,
      ((stepN 6 (initState c8Args c8Chars ⟨fun k => k, 0⟩)).revealed).count
        cid ≤ 1) :=
  reveal_at_most_once c8Args c8Chars ⟨fun k => k, 0⟩ 6 (by decide)

end TTE
